import Mathlib

/-!
Verification of the dispatch-and-fallback orchestration in `src/filehandler.py`
(the universal "anything-to-table" loader).

The embedding models pandas DataFrames as lists of rows over a small cell type,
byte strings as `List Nat`, and every external parsing capability (pandas
readers, pdfplumber, sqlite, zipfile/tarfile, codecs, ...) as a field of a
`Caps` record: the orchestration code under verification is translated
faithfully from `filehandler.py`, while the out-of-scope format parsers are
parameters.  Fallible Python calls are `Except Err`; a raised exception that
the Python code does not catch is a propagated `.error`.
-/

/-- A single cell value of a table: the null marker (pandas NaN), a string,
an integer (page numbers, html table indices, ...), or an opaque decoded-image
handle. -/
inductive Cell where
  | null : Cell
  | str : String → Cell
  | int : Int → Cell
  | img : Nat → Cell
deriving DecidableEq, Repr

/-- A pandas DataFrame: named columns and rows of cells, every row as long as
the column list (pandas frames are rectangular).  Column labels are kept as
strings; `_concat_with_origin` coerces any non-string pandas label with
`map(str)`, which the model treats as already applied. -/
structure DataFrame where
  cols : List String
  rows : List (List Cell)
  wf : ∀ r ∈ rows, r.length = cols.length

/-- The canonical empty table `pd.DataFrame()`: zero rows and zero columns. -/
def emptyDF : DataFrame := ⟨[], [], by simp⟩

/-- An archive member as seen while iterating a zip/tar container:
its declared name and size, whether it is a regular file (zip: not
`is_dir()`, tar: `isfile()`), and its bytes (`none` when reading the member
raises in zip, or `extractfile` returns `None` in tar). -/
structure Member where
  name : String
  size : Nat
  isFile : Bool
  content : Option (List Nat)

/-- One page handed back by pdfplumber: the extracted tables (already `[]`
when `extract_tables` raised, matching the inner `try` of `_read_pdf`) and the
extracted text (`extract_text() or ""`). -/
structure PdfPage where
  tables : List (List (List Cell))
  text : String

/-- A raised Python exception, abstracted to the distinctions the code makes:
`valueError tag` covers `ValueError` and its subclasses (pandas
`EmptyDataError` among them) because `load_any_file_to_dataframe` catches
exactly `ValueError` on the json branch; `other tag` is any other exception;
`fuel` models nontermination of the unbounded archive recursion
(a `RecursionError` in Python). -/
inductive Err where
  | fuel : Err
  | valueError : String → Err
  | other : String → Err
deriving DecidableEq, Repr

/-- Python `str.lower()` (ASCII case folding suffices for the suffix checks). -/
def pyLower (s : String) : String := ⟨s.data.map Char.toLower⟩

/-- Python `str.endswith(suffix)`. -/
def pyEndsWith (s suffix : String) : Bool := suffix.data.isSuffixOf s.data

/-- Python slicing `text[:n]` on characters. -/
def takeChars (n : Nat) (s : String) : String := ⟨s.data.take n⟩

/-- Python `c in sample` for a single-character needle. -/
def containsChar (s : String) (c : Char) : Bool := s.data.contains c

/-- Index of the first column with the given label, as pandas column lookup. -/
def colIdx : List String → String → Option Nat
  | [], _ => none
  | c :: cs, d => if c = d then some 0 else (colIdx cs d).map (· + 1)

/-- Cell of a row at a labelled column (`none` when the label is absent). -/
def cellOf (df : DataFrame) (r : List Cell) (c : String) : Option Cell :=
  (colIdx df.cols c).map (fun i => r.getD i Cell.null)

theorem colIdx_lt_length {l : List String} {c : String} {i : Nat}
    (h : colIdx l c = some i) : i < l.length := by
  induction l generalizing i with
  | nil => simp [colIdx] at h
  | cons a as ih =>
    by_cases hac : a = c
    · simp [colIdx, hac] at h
      simp only [List.length_cons]
      omega
    · simp [colIdx, hac] at h
      obtain ⟨j, hj, rfl⟩ := h
      have := ih hj
      simp only [List.length_cons]
      omega

theorem colIdx_getD {l : List String} {c : String} {i : Nat} (d : String)
    (h : colIdx l c = some i) : l.getD i d = c := by
  induction l generalizing i with
  | nil => simp [colIdx] at h
  | cons a as ih =>
    by_cases hac : a = c
    · simp [colIdx, hac] at h; subst h; simpa using hac
    · simp [colIdx, hac] at h
      obtain ⟨j, hj, rfl⟩ := h
      simpa using ih hj

theorem colIdx_isSome_of_mem {l : List String} {c : String}
    (h : c ∈ l) : (colIdx l c).isSome := by
  induction l with
  | nil => simp at h
  | cons a as ih =>
    by_cases hac : a = c
    · simp [colIdx, hac]
    · rcases List.mem_cons.1 h with h1 | h1
      · exact absurd h1.symm hac
      · rcases Option.isSome_iff_exists.1 (ih h1) with ⟨j, hj⟩
        simp [colIdx, hac, hj]

theorem colIdx_mem {l : List String} {c : String} {i : Nat}
    (h : colIdx l c = some i) : c ∈ l := by
  induction l generalizing i with
  | nil => simp [colIdx] at h
  | cons a as ih =>
    by_cases hac : a = c
    · simp [hac]
    · simp [colIdx, hac] at h
      obtain ⟨j, hj, _⟩ := h
      exact List.mem_cons_of_mem _ (ih hj)

theorem colIdx_none_of_not_mem {l : List String} {c : String}
    (h : c ∉ l) : colIdx l c = none := by
  cases hc : colIdx l c with
  | none => rfl
  | some i => exact absurd (colIdx_mem hc) h

theorem colIdx_append_of_none {l : List String} {c : String}
    (h : colIdx l c = none) : colIdx (l ++ [c]) c = some l.length := by
  induction l with
  | nil => simp [colIdx]
  | cons a as ih =>
    by_cases hac : a = c
    · simp [colIdx, hac] at h
    · simp [colIdx, hac] at h
      simp [colIdx, hac, ih h]

theorem colIdx_append_of_some {l m : List String} {c : String} {i : Nat}
    (h : colIdx l c = some i) : colIdx (l ++ m) c = some i := by
  induction l generalizing i with
  | nil => simp [colIdx] at h
  | cons a as ih =>
    by_cases hac : a = c
    · simp [colIdx, hac] at h ⊢; exact h
    · simp [colIdx, hac] at h
      obtain ⟨j, hj, rfl⟩ := h
      simp [colIdx, hac, ih hj]

/-- Column labels after Python `df[col] = value`: unchanged when the label
exists, otherwise the label is appended on the right. -/
def assignColCols (cols : List String) (c : String) : List String :=
  match colIdx cols c with
  | some _ => cols
  | none => cols ++ [c]

/-- One row after Python `df[col] = value` with a scalar broadcast: the cell
is overwritten in place when the label exists, otherwise appended. -/
def assignColRow (cols : List String) (c : String) (v : Cell) (r : List Cell) :
    List Cell :=
  match colIdx cols c with
  | some i => r.set i v
  | none => r ++ [v]

/-- Python `df[col] = value` on a scalar: replace the column in place when the
label exists, otherwise append it on the right; the scalar is broadcast to
every row.  `df.assign(col=value)` behaves the same way. -/
def assignCol (df : DataFrame) (c : String) (v : Cell) : DataFrame :=
  ⟨assignColCols df.cols c, df.rows.map (assignColRow df.cols c v), by
    intro r hr
    rcases List.mem_map.1 hr with ⟨r0, hr0, rfl⟩
    have hwf := df.wf r0 hr0
    unfold assignColCols assignColRow
    cases hc : colIdx df.cols c with
    | some i => simpa using hwf
    | none => simp [hwf]⟩

/-- Lexicographic order on column names by code points, as Python string
comparison used by the pandas label sort. -/
def colLe (a b : String) : Prop := a.data ≤ b.data

instance : DecidableRel colLe := fun a b => inferInstanceAs (Decidable (a.data ≤ b.data))

instance : IsTotal String colLe := ⟨fun a b => le_total a.data b.data⟩

instance : IsTrans String colLe := ⟨fun _ _ _ => le_trans⟩

/-- Whether every frame carries the same column list as the first, i.e. the
non-concatenation axis of `pd.concat` is already aligned. -/
def allSameCols : List (List String) → Bool
  | [] => true
  | c :: cs => cs.all (· == c)

/-- Reindex one source row onto the output columns of a concat: a column the
source frame lacks is filled with the null marker (pandas NaN). -/
def alignRow (srcCols outCols : List String) (r : List Cell) : List Cell :=
  outCols.map (fun c =>
    match colIdx srcCols c with
    | some i => r.getD i Cell.null
    | none => Cell.null)

/-- Row blocks of `pd.concat`: each frame contributes its rows, reindexed onto
the output columns, one frame after the other in list order. -/
def concatRows (outCols : List String) : List DataFrame → List (List Cell)
  | [] => []
  | f :: fs => f.rows.map (alignRow f.cols outCols) ++ concatRows outCols fs

/-- Output columns of `pd.concat(frames, ignore_index=True, sort=True)`: the
common column list when all frames are aligned, otherwise the sorted
deduplicated union of all column lists (with `sort=True` the union is sorted
lexicographically). -/
def concatCols (fs : List DataFrame) : List String :=
  match fs with
  | [] => []
  | f0 :: rest =>
    if allSameCols ((f0 :: rest).map (·.cols)) then f0.cols
    else List.insertionSort colLe (((f0 :: rest).map (·.cols)).flatten.dedup)

theorem alignRow_length (srcCols outCols : List String) (r : List Cell) :
    (alignRow srcCols outCols r).length = outCols.length := by
  simp [alignRow]

theorem concatRows_length {outCols : List String} {fs : List DataFrame}
    {r : List Cell} (hr : r ∈ concatRows outCols fs) :
    r.length = outCols.length := by
  induction fs with
  | nil => simp [concatRows] at hr
  | cons g gs ih =>
    rcases List.mem_append.1 hr with h | h
    · rcases List.mem_map.1 h with ⟨r0, _, rfl⟩
      exact alignRow_length _ _ _
    · exact ih h

/-- Model of `_concat_with_origin(frames)` from `filehandler.py`: the empty
frame list yields the canonical empty table, otherwise
`pd.concat(frames, ignore_index=True, sort=True)` (the `map(str)` label
coercion is the identity here because the model keeps labels as strings). -/
def concatWithOrigin (fs : List DataFrame) : DataFrame :=
  match fs with
  | [] => emptyDF
  | f0 :: rest =>
    ⟨concatCols (f0 :: rest), concatRows (concatCols (f0 :: rest)) (f0 :: rest),
      fun _ hr => concatRows_length hr⟩

theorem mem_concatRows {outCols : List String} {fs : List DataFrame}
    {r : List Cell} (hr : r ∈ concatRows outCols fs) :
    ∃ f ∈ fs, ∃ r0 ∈ f.rows, r = alignRow f.cols outCols r0 := by
  induction fs with
  | nil => simp [concatRows] at hr
  | cons g gs ih =>
    rcases List.mem_append.1 hr with h | h
    · rcases List.mem_map.1 h with ⟨r0, hr0, rfl⟩
      exact ⟨g, by simp, r0, hr0, rfl⟩
    · rcases ih h with ⟨f, hf, r0, hr0, h0⟩
      exact ⟨f, by simp [hf], r0, hr0, h0⟩

theorem concatRows_mem {outCols : List String} {fs : List DataFrame}
    {f : DataFrame} {r0 : List Cell} (hf : f ∈ fs) (hr0 : r0 ∈ f.rows) :
    alignRow f.cols outCols r0 ∈ concatRows outCols fs := by
  induction fs with
  | nil => simp at hf
  | cons g gs ih =>
    rcases List.mem_cons.1 hf with h | h
    · subst h
      exact List.mem_append_left _ (List.mem_map_of_mem _ hr0)
    · exact List.mem_append_right _ (ih h)

theorem allSameCols_eq {fs : List DataFrame} {f0 : DataFrame}
    (hall : allSameCols ((f0 :: fs).map (·.cols)) = true) :
    ∀ f ∈ f0 :: fs, f.cols = f0.cols := by
  intro f hf
  rcases List.mem_cons.1 hf with h | h
  · simp [h]
  · simp only [allSameCols, List.map_cons, List.all_eq_true] at hall
    have := hall f.cols (List.mem_map_of_mem _ h)
    simpa using this

theorem mem_concatCols {fs : List DataFrame} {c : String} (hne : fs ≠ []) :
    c ∈ concatCols fs ↔ ∃ f ∈ fs, c ∈ f.cols := by
  match fs with
  | [] => exact absurd rfl hne
  | f0 :: rest =>
    simp only [concatCols]
    by_cases hall : allSameCols ((f0 :: rest).map (·.cols)) = true
    · simp only [hall, if_true]
      constructor
      · intro hc; exact ⟨f0, by simp, hc⟩
      · rintro ⟨f, hf, hc⟩
        rwa [allSameCols_eq hall f hf] at hc
    · rw [if_neg hall, (List.perm_insertionSort colLe _).mem_iff,
        List.mem_dedup, List.mem_flatten]
      constructor
      · rintro ⟨l, hl, hc⟩
        rcases List.mem_map.1 hl with ⟨f, hf, rfl⟩
        exact ⟨f, hf, hc⟩
      · rintro ⟨f, hf, hc⟩
        exact ⟨f.cols, List.mem_map_of_mem _ hf, hc⟩

/-- Quota constants of `filehandler.py` at their environment defaults:
`MAX_ARCHIVE_FILES = 50`, `MAX_FILE_BYTES = 25 * 1024 * 1024`,
`MAX_PDF_PAGES = 100`. -/
def MAX_ARCHIVE_FILES : Nat := 50

def MAX_FILE_BYTES : Nat := 25 * 1024 * 1024

def MAX_PDF_PAGES : Nat := 100

/-- External collaborator capabilities of `filehandler.py` (the delegated
format parsers, codecs and container openers, specified only by interface).
Fallible calls return `Except Err`; a capability-availability flag mirrors the
guarded import of the corresponding optional module. -/
structure Caps where
  decUtf8 : List Nat → Option String
  decUtf16 : List Nat → Option String
  decLatin1 : List Nat → Option String
  chardetAvailable : Bool
  chardetDecode : List Nat → Option String
  utf8Replace : List Nat → String
  sniffDialect : String → Option String
  readCsv : List Nat → Option String → Except Err DataFrame
  readCsvText : String → String → Except Err DataFrame
  readExcelSheets : List Nat → Except Err (List (String × DataFrame))
  readExcelSheetsCompat : List Nat → Except Err (List (String × DataFrame))
  readParquet : List Nat → Except Err DataFrame
  readJson : List Nat → Except Err DataFrame
  jsonLoadsNormalize : String → Except Err DataFrame
  pdfplumberAvailable : Bool
  pdfOpen : List Nat → Except Err (List PdfPage)
  sqliteMaster : List Nat → Except Err (List String)
  sqliteQuery : List Nat → String → Except Err DataFrame
  gzipDecompress : List Nat → Except Err (List Nat)
  readHtmlTables : String → Except Err (List DataFrame)
  bs4Available : Bool
  bs4Text : String → Except Err String
  xmltodictAvailable : Bool
  xmlNormalize : String → Except Err DataFrame
  docxAvailable : Bool
  docxParas : List Nat → Except Err (List String)
  imageDecode : List Nat → Except Err Nat
  zipOpen : List Nat → Except Err (List Member)
  tarOpen : List Nat → Except Err (List Member)

/-- Model of `_decode_text_bytes(b)`: try utf-8, utf-16, latin-1 in order;
then, when chardet is available, its guess decoded with lossy substitution
(`none` covers both a failed detect call and a `None` guess); finally forced
lossy utf-8.  Total by construction. -/
def decodeTextBytes (caps : Caps) (b : List Nat) : String :=
  match caps.decUtf8 b with
  | some s => s
  | none =>
    match caps.decUtf16 b with
    | some s => s
    | none =>
      match caps.decLatin1 b with
      | some s => s
      | none =>
        if caps.chardetAvailable then
          match caps.chardetDecode b with
          | some s => s
          | none => caps.utf8Replace b
        else caps.utf8Replace b

/-- Model of `_sniff_csv_delimiter(text)`: the first 4096 characters go to
`csv.Sniffer` (a capability; `none` is a sniff failure), then the heuristic
ladder tab, semicolon, pipe, comma. -/
def sniffCsvDelimiter (caps : Caps) (text : String) : Option String :=
  let sample := takeChars 4096 text
  match caps.sniffDialect sample with
  | some d => some d
  | none =>
    if containsChar sample '\t' then some "\t"
    else if containsChar sample ';' then some ";"
    else if containsChar sample '|' then some "|"
    else if containsChar sample ',' then some ","
    else none

/-- One-row frame `pd.DataFrame({"text": [txt], "_source": [filename]})`, the
terminal rung of several fallback ladders. -/
def singleTextRow (txt filename : String) : DataFrame :=
  ⟨["text", "_source"], [[Cell.str txt, Cell.str filename]], by simp⟩

/-- One-row frame `pd.DataFrame({"_source": [filename]})`, the empty-database
placeholder of `_read_sqlite`. -/
def sourceOnlyRow (filename : String) : DataFrame :=
  ⟨["_source"], [[Cell.str filename]], by simp⟩

/-- Width of `pd.DataFrame(t)` for a list of raw rows: the longest row. -/
def rawWidth (t : List (List Cell)) : Nat :=
  (t.map List.length).foldr max 0

theorem length_le_rawWidth {t : List (List Cell)} {r : List Cell}
    (hr : r ∈ t) : r.length ≤ rawWidth t := by
  induction t with
  | nil => simp at hr
  | cons a as ih =>
    rcases List.mem_cons.1 hr with h | h
    · subst h; simp [rawWidth]
    · calc r.length ≤ rawWidth as := ih h
        _ ≤ rawWidth (a :: as) := by simp [rawWidth]

/-- Model of `pd.DataFrame(t)` on a list of raw rows (a pdfplumber table):
integer column labels `0..w-1` (already stringified, see `DataFrame`), short
rows padded with NaN on the right. -/
def dfOfRawRows (t : List (List Cell)) : DataFrame :=
  ⟨(List.range (rawWidth t)).map toString,
   t.map (fun r => r ++ List.replicate (rawWidth t - r.length) Cell.null), by
    intro r hr
    rcases List.mem_map.1 hr with ⟨r0, hr0, rfl⟩
    have := length_le_rawWidth hr0
    simp
    omega⟩

/-- Model of `_read_excel_all_sheets(content, filename)`: `pd.read_excel`
with `sheet_name=None`, on failure the older `pd.ExcelFile` route (whose own
failure propagates); each sheet tagged with `_sheet` and `_source`, merged
with `_concat_with_origin`; no sheets at all gives `pd.DataFrame()`. -/
def readExcelAllSheets (caps : Caps) (content : List Nat) (filename : String) :
    Except Err DataFrame :=
  match (match caps.readExcelSheets content with
         | .ok sheets => Except.ok sheets
         | .error _ => caps.readExcelSheetsCompat content) with
  | .error e => .error e
  | .ok sheets =>
    let frames := sheets.map (fun (p : String × DataFrame) =>
      assignCol (assignCol p.2 "_sheet" (Cell.str p.1)) "_source" (Cell.str filename))
    if frames.isEmpty then .ok emptyDF else .ok (concatWithOrigin frames)

/-- Table-less pages of `_read_pdf`, the ones that contribute a
`{"page": i + 1, "text": text, "_source": filename}` text row (pages
enumerated from 0). -/
def pdfTextPages (pages : List (Nat × PdfPage)) : List (Nat × PdfPage) :=
  pages.filter (fun p => p.2.tables.isEmpty)

/-- Model of `pd.DataFrame(text_pages)` in `_read_pdf`: the empty list gives
the canonical empty frame, otherwise columns `page`, `text`, `_source` in dict
order with one row per table-less page. -/
def dfOfTextPages (filename : String) (ps : List (Nat × PdfPage)) : DataFrame :=
  match ps with
  | [] => emptyDF
  | _ =>
    ⟨["page", "text", "_source"],
     ps.map (fun p => [Cell.int (p.1 + 1), Cell.str p.2.text, Cell.str filename]), by
      intro r hr
      rcases List.mem_map.1 hr with ⟨r0, _, rfl⟩
      simp⟩

/-- Model of `_read_pdf(content, filename)`: with pdfplumber, open the
document, walk at most `MAX_PDF_PAGES` pages collecting per-table frames
tagged `_page`/`_source`; if any table was found, concatenate the table
frames, else return the per-page text rows; any open/extract failure (or
pdfplumber being unavailable) falls to the opaque placeholder row. -/
def readPdf (caps : Caps) (content : List Nat) (filename : String) : DataFrame :=
  if caps.pdfplumberAvailable then
    match caps.pdfOpen content with
    | .error _ => singleTextRow "<pdf content>" filename
    | .ok pages =>
      let ps := (pages.take MAX_PDF_PAGES).enum
      let frames := ps.flatMap (fun p =>
        p.2.tables.map (fun t =>
          assignCol (assignCol (dfOfRawRows t) "_page" (Cell.int (p.1 + 1)))
            "_source" (Cell.str filename)))
      if frames.isEmpty then dfOfTextPages filename (pdfTextPages ps)
      else concatWithOrigin frames
  else singleTextRow "<pdf content>" filename

/-- Model of `_read_sqlite(content, filename)`: enumerate `sqlite_master`
tables (this query is outside any `try`, so its failure propagates); per-table
row selection failures are skipped; each selected frame is tagged `_table` and
`_source`; no surviving frame gives the `{"_source": [filename]}` placeholder. -/
def readSqlite (caps : Caps) (content : List Nat) (filename : String) :
    Except Err DataFrame :=
  match caps.sqliteMaster content with
  | .error e => .error e
  | .ok tbls =>
    let frames := tbls.filterMap (fun t =>
      match caps.sqliteQuery content t with
      | .ok df => some (assignCol (assignCol df "_table" (Cell.str t))
          "_source" (Cell.str filename))
      | .error _ => none)
    if frames.isEmpty then .ok (sourceOnlyRow filename)
    else .ok (concatWithOrigin frames)

/-- The text fallback of `_read_html_text`: BeautifulSoup page text when the
module is available and succeeds, otherwise the raw decoded text row. -/
def htmlFallback (caps : Caps) (text filename : String) : DataFrame :=
  if caps.bs4Available then
    match caps.bs4Text text with
    | .ok pageText => singleTextRow pageText filename
    | .error _ => singleTextRow text filename
  else singleTextRow text filename

/-- Model of `_read_html_text(content, filename)`: decode, try
`pd.read_html`; a non-empty table list is tagged `_html_table_index` and
`_source` and concatenated; on failure or an empty list, BeautifulSoup text
when available; finally the raw decoded text row. -/
def readHtmlText (caps : Caps) (content : List Nat) (filename : String) :
    DataFrame :=
  match caps.readHtmlTables (decodeTextBytes caps content) with
  | .ok tables =>
    if tables.isEmpty then htmlFallback caps (decodeTextBytes caps content) filename
    else
      concatWithOrigin (tables.enum.map (fun (p : Nat × DataFrame) =>
        assignCol (assignCol p.2 "_html_table_index" (Cell.int p.1))
          "_source" (Cell.str filename)))
  | .error _ => htmlFallback caps (decodeTextBytes caps content) filename

/-- Model of `_read_xml(content, filename)`: decode, then with xmltodict
parse-and-normalize (`max_level=2`) tagged with `_source`; any failure (or the
module being unavailable) falls to the raw text row. -/
def readXml (caps : Caps) (content : List Nat) (filename : String) : DataFrame :=
  if caps.xmltodictAvailable then
    match caps.xmlNormalize (decodeTextBytes caps content) with
    | .ok df => assignCol df "_source" (Cell.str filename)
    | .error _ => singleTextRow (decodeTextBytes caps content) filename
  else singleTextRow (decodeTextBytes caps content) filename

/-- Model of `_read_docx(content, filename)`: placeholder when python-docx is
unavailable; otherwise `docx.Document` (uncaught, so its failure propagates)
yields the paragraphs, of which the non-blank ones each become a row with a
broadcast `_source`. -/
def readDocx (caps : Caps) (content : List Nat) (filename : String) :
    Except Err DataFrame :=
  if caps.docxAvailable then
    match caps.docxParas content with
    | .error e => .error e
    | .ok allParas =>
      let paras := allParas.filter (fun p => ¬ p.trim.isEmpty)
      .ok ⟨["paragraph", "_source"],
        paras.map (fun p => [Cell.str p, Cell.str filename]), by
          intro r hr
          rcases List.mem_map.1 hr with ⟨r0, _, rfl⟩
          simp⟩
  else .ok (singleTextRow "<docx content>" filename)

/-- Model of `_read_gzip_singlefile(content, inner_name_hint, filename)`:
decompress (failure gives the gz placeholder), then try `pd.read_csv`,
`pd.read_json`, a delimiter-sniffed `pd.read_csv` on the decoded text, and
finally the raw decoded text row.  The `inner_name_hint` parameter is unused,
as in the source. -/
def readGzipSinglefile (caps : Caps) (content : List Nat)
    (_innerNameHint filename : String) : DataFrame :=
  match caps.gzipDecompress content with
  | .error _ => singleTextRow "<gz content>" filename
  | .ok raw =>
    match caps.readCsv raw none with
    | .ok df => assignCol df "_source" (Cell.str filename)
    | .error _ =>
      match caps.readJson raw with
      | .ok df => assignCol df "_source" (Cell.str filename)
      | .error _ =>
        match sniffCsvDelimiter caps (decodeTextBytes caps raw) with
        | some delim =>
          match caps.readCsvText (decodeTextBytes caps raw) delim with
          | .ok df => assignCol df "_source" (Cell.str filename)
          | .error _ => singleTextRow (decodeTextBytes caps raw) filename
        | none => singleTextRow (decodeTextBytes caps raw) filename

/-- The member loop shared verbatim by the zip and tar arms of
`_read_archive`: stop once the processed counter has reached
`MAX_ARCHIVE_FILES`; skip non-file entries, entries whose declared size is
non-zero and exceeds `MAX_FILE_BYTES` (never reading them), and entries whose
bytes cannot be read; recursively load each remaining member; a non-empty
result is tagged `_file` and `_source` and accumulated, bumping the counter.
An error of the recursive load propagates (the zip arm has no `try` around
its loop; the tar arm catches it one level up). -/
def archiveLoop (loadRec : List Nat → String → Except Err DataFrame)
    (filename : String) :
    List Member → Nat → List DataFrame → Except Err (List DataFrame)
  | [], _, frames => .ok frames
  | m :: rest, processed, frames =>
    if processed ≥ MAX_ARCHIVE_FILES then .ok frames
    else if m.isFile = false then archiveLoop loadRec filename rest processed frames
    else if m.size ≠ 0 ∧ m.size > MAX_FILE_BYTES then
      archiveLoop loadRec filename rest processed frames
    else
      match m.content with
      | none => archiveLoop loadRec filename rest processed frames
      | some inner =>
        match loadRec inner m.name with
        | .error e => .error e
        | .ok df =>
          if df.rows.isEmpty ∨ df.cols.isEmpty then
            archiveLoop loadRec filename rest processed frames
          else
            archiveLoop loadRec filename rest (processed + 1)
              (frames ++ [assignCol (assignCol df "_file" (Cell.str m.name))
                "_source" (Cell.str filename)])

/-- The tar-family suffixes listed in `_read_archive` when computing `mode`. -/
def isTarSuffix (lower : String) : Bool :=
  [".tar", ".tgz", ".tar.gz", ".tbz2", ".tar.bz2", ".txz", ".tar.xz"].any
    (fun e => pyEndsWith lower e)

/-- Model of `_read_archive(content, filename)`: the zip arm (entered on a
`.zip` suffix) opens the container and runs the member loop with no exception
handler, so open and recursion failures propagate; the tar arm wraps mode
computation, open, loop and concat in one `try`, any failure of which falls
through to the unknown-archive placeholder, which is also reached when no tar
suffix matches. -/
def readArchive (loadRec : List Nat → String → Except Err DataFrame)
    (caps : Caps) (content : List Nat) (filename : String) :
    Except Err DataFrame :=
  let lower := pyLower filename
  if pyEndsWith lower ".zip" then
    match caps.zipOpen content with
    | .error e => .error e
    | .ok members =>
      match archiveLoop loadRec filename members 0 [] with
      | .error e => .error e
      | .ok frames => .ok (concatWithOrigin frames)
  else
    if isTarSuffix lower then
      match caps.tarOpen content with
      | .error _ => .ok (singleTextRow "<archive content>" filename)
      | .ok members =>
        match archiveLoop loadRec filename members 0 [] with
        | .error _ => .ok (singleTextRow "<archive content>" filename)
        | .ok frames => .ok (concatWithOrigin frames)
    else .ok (singleTextRow "<archive content>" filename)

/-- The format kind a filename dispatches to, one tag per arm of the
`if`/`elif` suffix chain of `load_any_file_to_dataframe`, in source order.
`plainText` is the `(".txt", ".log", ".md", ".rst", "")` arm and
`finalFallback` the closing raw-text return (unreachable, because every
string ends with the empty suffix). -/
inductive Branch where
  | csv | tsvLike | excel | parquet | json | pdf | sqlite | gzipSingle
  | archive | html | xml | docx | image | plainText | finalFallback
deriving DecidableEq, Repr

/-- Model of the suffix dispatch of `load_any_file_to_dataframe`: lowercase
the filename (`(filename or "").lower()`) and walk the `endswith` chain in
source order, first match winning. -/
def detectBranch (filename : String) : Branch :=
  let name := pyLower filename
  if pyEndsWith name ".csv" then .csv
  else if pyEndsWith name ".tsv" ∨ pyEndsWith name ".tab" ∨ pyEndsWith name ".tsc" then .tsvLike
  else if pyEndsWith name ".xlsx" ∨ pyEndsWith name ".xls" then .excel
  else if pyEndsWith name ".parquet" then .parquet
  else if pyEndsWith name ".json" then .json
  else if pyEndsWith name ".pdf" then .pdf
  else if pyEndsWith name ".db" ∨ pyEndsWith name ".sqlite" ∨ pyEndsWith name ".sqlite3" then .sqlite
  else if pyEndsWith name ".gz" ∨ pyEndsWith name ".gzip" then .gzipSingle
  else if pyEndsWith name ".zip" ∨ isTarSuffix name then .archive
  else if pyEndsWith name ".html" ∨ pyEndsWith name ".htm" then .html
  else if pyEndsWith name ".xml" then .xml
  else if pyEndsWith name ".docx" then .docx
  else if pyEndsWith name ".png" ∨ pyEndsWith name ".jpg" ∨ pyEndsWith name ".jpeg" then .image
  else if pyEndsWith name ".txt" ∨ pyEndsWith name ".log" ∨ pyEndsWith name ".md" ∨
      pyEndsWith name ".rst" ∨ pyEndsWith name "" then .plainText
  else .finalFallback

/-- The plain-text arm of `load_any_file_to_dataframe`: decode, sniff a
delimiter, on a hit attempt the delimited parse (its failure is caught),
otherwise or on failure a single free-text row. -/
def plainTextResult (caps : Caps) (content : List Nat) (filename : String) :
    DataFrame :=
  match sniffCsvDelimiter caps (decodeTextBytes caps content) with
  | some delim =>
    match caps.readCsvText (decodeTextBytes caps content) delim with
    | .ok df => assignCol df "_source" (Cell.str filename)
    | .error _ => singleTextRow (decodeTextBytes caps content) filename
  | none => singleTextRow (decodeTextBytes caps content) filename

/-- Python slicing `filename[:-3]`, the inner-name hint handed to
`_read_gzip_singlefile` (and ignored there). -/
def dropLast3 (s : String) : String := ⟨s.data.take (s.data.length - 3)⟩

/-- Model of the body of `load_any_file_to_dataframe(content, filename)` with
the recursive occurrence (the archive arm) abstracted as `loadRec`.  Arms
whose pandas call is not wrapped in `try` (`csv`, `tsv`-like, `excel`
engine fallback, `parquet`, a non-ValueError of `read_json`, `sqlite_master`,
`docx.Document`, zip open and zip member recursion) propagate the failure. -/
def loadBody (loadRec : List Nat → String → Except Err DataFrame)
    (caps : Caps) (content : List Nat) (filename : String) :
    Except Err DataFrame :=
  match detectBranch filename with
  | .csv => (caps.readCsv content none).map
      (fun df => assignCol df "_source" (Cell.str filename))
  | .tsvLike => (caps.readCsv content (some "\t")).map
      (fun df => assignCol df "_source" (Cell.str filename))
  | .excel => readExcelAllSheets caps content filename
  | .parquet => (caps.readParquet content).map
      (fun df => assignCol df "_source" (Cell.str filename))
  | .json =>
    match caps.readJson content with
    | .ok df => .ok (assignCol df "_source" (Cell.str filename))
    | .error (.valueError _) =>
      match caps.jsonLoadsNormalize (decodeTextBytes caps content) with
      | .ok df => .ok (assignCol df "_source" (Cell.str filename))
      | .error _ => .ok (singleTextRow (decodeTextBytes caps content) filename)
    | .error e => .error e
  | .pdf => .ok (readPdf caps content filename)
  | .sqlite => readSqlite caps content filename
  | .gzipSingle =>
      .ok (readGzipSinglefile caps content (dropLast3 filename) filename)
  | .archive => readArchive loadRec caps content filename
  | .html => .ok (readHtmlText caps content filename)
  | .xml => .ok (readXml caps content filename)
  | .docx => readDocx caps content filename
  | .image =>
    match caps.imageDecode content with
    | .ok handle =>
      .ok ⟨["image", "_source"], [[Cell.img handle, Cell.str filename]], by simp⟩
    | .error _ => .ok (singleTextRow "<image>" filename)
  | .plainText => .ok (plainTextResult caps content filename)
  | .finalFallback => .ok (singleTextRow (decodeTextBytes caps content) filename)

/-- Model of the public `load_any_file_to_dataframe`, with a fuel parameter
bounding the archive recursion depth (which the Python code leaves unbounded);
exhausted fuel is the `RecursionError` of unbounded self-invocation. -/
def load (caps : Caps) : Nat → List Nat → String → Except Err DataFrame
  | 0, _, _ => .error .fuel
  | fuel + 1, content, filename => loadBody (load caps fuel) caps content filename

theorem getD_set_self {α : Type} {l : List α} {i : Nat} (h : i < l.length)
    (a d : α) : (l.set i a).getD i d = a := by
  induction l generalizing i with
  | nil => simp at h
  | cons x xs ih =>
    cases i with
    | zero => simp
    | succ j => simpa using ih (by simpa using h)

theorem getD_set_ne {α : Type} {l : List α} {i j : Nat} (hne : i ≠ j)
    (a d : α) : (l.set j a).getD i d = l.getD i d := by
  induction l generalizing i j with
  | nil => simp
  | cons x xs ih =>
    cases j with
    | zero => cases i with
      | zero => exact absurd rfl hne
      | succ k => simp
    | succ j0 => cases i with
      | zero => simp
      | succ k => simpa using ih (fun hk => hne (by simp [hk]))

theorem getD_append_length {α : Type} {l : List α} {i : Nat}
    (h : i = l.length) (a d : α) : (l ++ [a]).getD i d = a := by
  subst h
  induction l with
  | nil => simp
  | cons x xs ih => simp

theorem getD_append_lt {α : Type} {l m : List α} {i : Nat} (h : i < l.length)
    (d : α) : (l ++ m).getD i d = l.getD i d := by
  induction l generalizing i with
  | nil => simp at h
  | cons x xs ih =>
    cases i with
    | zero => simp
    | succ j => simpa using ih (by simpa using h)

theorem getD_map_of_lt {α β : Type} {l : List α} {j : Nat} (h : j < l.length)
    (g : α → β) (d : β) (d0 : α) : (l.map g).getD j d = g (l.getD j d0) := by
  induction l generalizing j with
  | nil => simp at h
  | cons x xs ih =>
    cases j with
    | zero => simp
    | succ k => simpa using ih (by simpa using h)

/-- Unpacking of `cellOf df r c = some v` into index facts. -/
theorem cellOf_eq_some {df : DataFrame} {r : List Cell} {c : String} {v : Cell}
    (h : cellOf df r c = some v) :
    ∃ i, colIdx df.cols c = some i ∧ r.getD i Cell.null = v := by
  unfold cellOf at h
  cases hc : colIdx df.cols c with
  | none => simp [hc] at h
  | some i =>
    rw [hc] at h
    exact ⟨i, rfl, by simpa using h⟩

/-- Assigning a scalar to a column makes that column constant on every row. -/
theorem assignCol_self {df : DataFrame} {c : String} {v : Cell} :
    ∀ r ∈ (assignCol df c v).rows, cellOf (assignCol df c v) r c = some v := by
  intro r hr
  rcases List.mem_map.1 hr with ⟨r0, hr0, rfl⟩
  show (colIdx (assignColCols df.cols c) c).map
    (fun i => (assignColRow df.cols c v r0).getD i Cell.null) = some v
  cases hc : colIdx df.cols c with
  | some i =>
    have hlt : i < r0.length := by
      rw [df.wf r0 hr0]; exact colIdx_lt_length hc
    simp only [assignColCols, assignColRow, hc]
    exact congrArg some (getD_set_self hlt v Cell.null)
  | none =>
    simp only [assignColCols, assignColRow, hc]
    rw [colIdx_append_of_none hc]
    exact congrArg some (getD_append_length (df.wf r0 hr0).symm v Cell.null)

/-- Assigning one column leaves a differently-named constant column constant. -/
theorem assignCol_other {df : DataFrame} {c c2 : String} {v w : Cell}
    (hne : c ≠ c2)
    (hconst : ∀ r ∈ df.rows, cellOf df r c = some v) :
    ∀ r ∈ (assignCol df c2 w).rows, cellOf (assignCol df c2 w) r c = some v := by
  intro r hr
  rcases List.mem_map.1 hr with ⟨r0, hr0, rfl⟩
  rcases cellOf_eq_some (hconst r0 hr0) with ⟨i, hi, hval⟩
  show (colIdx (assignColCols df.cols c2) c).map
    (fun k => (assignColRow df.cols c2 w r0).getD k Cell.null) = some v
  cases hc2 : colIdx df.cols c2 with
  | some i2 =>
    have hii2 : i ≠ i2 := by
      intro hk
      subst hk
      exact hne (by rw [← colIdx_getD "" hi, ← colIdx_getD "" hc2])
    simp only [assignColCols, assignColRow, hc2]
    rw [hi]
    exact congrArg some ((getD_set_ne hii2 w Cell.null).trans hval)
  | none =>
    have hlt : i < r0.length := by
      rw [df.wf r0 hr0]; exact colIdx_lt_length hi
    simp only [assignColCols, assignColRow, hc2]
    rw [colIdx_append_of_some hi]
    exact congrArg some ((getD_append_lt hlt Cell.null).trans hval)

/-- A column that is constant on every row of every input frame is constant on
every row of their concatenation. -/
theorem concatWithOrigin_const {fs : List DataFrame} {c : String} {v : Cell}
    (hconst : ∀ f ∈ fs, ∀ r ∈ f.rows, cellOf f r c = some v) :
    ∀ r ∈ (concatWithOrigin fs).rows,
      cellOf (concatWithOrigin fs) r c = some v := by
  intro r hr
  match fs with
  | [] => simp [concatWithOrigin, emptyDF] at hr
  | f0 :: rest =>
    have hrows : (concatWithOrigin (f0 :: rest)).rows
        = concatRows (concatCols (f0 :: rest)) (f0 :: rest) := rfl
    have hcols : (concatWithOrigin (f0 :: rest)).cols = concatCols (f0 :: rest) := rfl
    rw [hrows] at hr
    rcases mem_concatRows hr with ⟨f, hf, r0, hr0, rfl⟩
    rcases cellOf_eq_some (hconst f hf r0 hr0) with ⟨i, hi, hval⟩
    have hcmem : c ∈ concatCols (f0 :: rest) :=
      (mem_concatCols (by simp)).2 ⟨f, hf, colIdx_mem hi⟩
    rcases Option.isSome_iff_exists.1 (colIdx_isSome_of_mem hcmem) with ⟨j, hj⟩
    have hjlt : j < (concatCols (f0 :: rest)).length := colIdx_lt_length hj
    have halign : (alignRow f.cols (concatCols (f0 :: rest))
        r0).getD j Cell.null = r0.getD i Cell.null := by
      rw [alignRow, getD_map_of_lt hjlt _ Cell.null ""]
      rw [colIdx_getD "" hj, hi]
    show (colIdx (concatWithOrigin (f0 :: rest)).cols c).map
      (fun k => (alignRow f.cols (concatCols (f0 :: rest)) r0).getD k Cell.null)
      = some v
    rw [hcols, hj]
    exact congrArg some (halign.trans hval)

theorem singleTextRow_source {txt filename : String} :
    ∀ r ∈ (singleTextRow txt filename).rows,
      cellOf (singleTextRow txt filename) r "_source"
        = some (Cell.str filename) := by
  intro r hr
  simp only [singleTextRow, List.mem_singleton] at hr
  subst hr
  simp [cellOf, colIdx, singleTextRow]

theorem sourceOnlyRow_source {filename : String} :
    ∀ r ∈ (sourceOnlyRow filename).rows,
      cellOf (sourceOnlyRow filename) r "_source"
        = some (Cell.str filename) := by
  intro r hr
  simp only [sourceOnlyRow, List.mem_singleton] at hr
  subst hr
  simp [cellOf, colIdx, sourceOnlyRow]

/-- A frame whose outermost construction step was `df["_source"] = filename`
has the constant `_source` column, no matter what `df` was. -/
theorem assign_source {df : DataFrame} {filename : String} :
    ∀ r ∈ (assignCol df "_source" (Cell.str filename)).rows,
      cellOf (assignCol df "_source" (Cell.str filename)) r "_source"
        = some (Cell.str filename) :=
  assignCol_self

theorem readExcelAllSheets_source {caps : Caps} {content : List Nat}
    {filename : String} {df : DataFrame}
    (h : readExcelAllSheets caps content filename = .ok df) :
    ∀ r ∈ df.rows, cellOf df r "_source" = some (Cell.str filename) := by
  unfold readExcelAllSheets at h
  rcases hsheets : (match caps.readExcelSheets content with
    | .ok sheets => Except.ok sheets
    | .error _ => caps.readExcelSheetsCompat content) with e | sheets
  case error => rw [hsheets] at h; simp at h
  case ok =>
    rw [hsheets] at h
    simp only at h
    by_cases hemp : (sheets.map (fun (p : String × DataFrame) =>
        assignCol (assignCol p.2 "_sheet" (Cell.str p.1))
          "_source" (Cell.str filename))).isEmpty
    · rw [if_pos hemp] at h
      cases h
      intro r hr
      simp [emptyDF] at hr
    · rw [if_neg hemp] at h
      cases h
      exact concatWithOrigin_const (fun f hf => by
        rcases List.mem_map.1 hf with ⟨p, _, rfl⟩
        exact assign_source)

theorem dfOfTextPages_source {filename : String} {ps : List (Nat × PdfPage)} :
    ∀ r ∈ (dfOfTextPages filename ps).rows,
      cellOf (dfOfTextPages filename ps) r "_source"
        = some (Cell.str filename) := by
  intro r hr
  match ps with
  | [] => simp [dfOfTextPages, emptyDF] at hr
  | p0 :: rest =>
    simp only [dfOfTextPages] at hr ⊢
    rcases List.mem_map.1 hr with ⟨q, _, rfl⟩
    simp [cellOf, colIdx]

theorem readPdf_source {caps : Caps} {content : List Nat} {filename : String} :
    ∀ r ∈ (readPdf caps content filename).rows,
      cellOf (readPdf caps content filename) r "_source"
        = some (Cell.str filename) := by
  unfold readPdf
  by_cases hav : caps.pdfplumberAvailable
  · rw [if_pos hav]
    rcases hopen : caps.pdfOpen content with e | pages
    · exact singleTextRow_source
    · simp only
      by_cases hemp : (((pages.take MAX_PDF_PAGES).enum).flatMap
          (fun (p : Nat × PdfPage) => p.2.tables.map (fun t =>
            assignCol (assignCol (dfOfRawRows t) "_page" (Cell.int (p.1 + 1)))
              "_source" (Cell.str filename)))).isEmpty
      · rw [if_pos hemp]
        exact dfOfTextPages_source
      · rw [if_neg hemp]
        exact concatWithOrigin_const (fun f hf => by
          rcases List.mem_flatMap.1 hf with ⟨p, _, hp⟩
          rcases List.mem_map.1 hp with ⟨t, _, rfl⟩
          exact assign_source)
  · rw [if_neg hav]
    exact singleTextRow_source

theorem readSqlite_source {caps : Caps} {content : List Nat}
    {filename : String} {df : DataFrame}
    (h : readSqlite caps content filename = .ok df) :
    ∀ r ∈ df.rows, cellOf df r "_source" = some (Cell.str filename) := by
  unfold readSqlite at h
  rcases hm : caps.sqliteMaster content with e | tbls
  · rw [hm] at h; simp at h
  · rw [hm] at h
    simp only at h
    by_cases hemp : (tbls.filterMap (fun t =>
        match caps.sqliteQuery content t with
        | .ok df0 => some (assignCol (assignCol df0 "_table" (Cell.str t))
            "_source" (Cell.str filename))
        | .error _ => none)).isEmpty
    · rw [if_pos hemp] at h
      cases h
      exact sourceOnlyRow_source
    · rw [if_neg hemp] at h
      cases h
      exact concatWithOrigin_const (fun f hf => by
        rcases List.mem_filterMap.1 hf with ⟨t, _, hft⟩
        rcases hq : caps.sqliteQuery content t with e0 | df0
        · rw [hq] at hft; simp at hft
        · rw [hq] at hft
          simp only [Option.some_inj] at hft
          subst hft
          exact assign_source)

theorem htmlFallback_source {caps : Caps} {text filename : String} :
    ∀ r ∈ (htmlFallback caps text filename).rows,
      cellOf (htmlFallback caps text filename) r "_source"
        = some (Cell.str filename) := by
  unfold htmlFallback
  by_cases hav : caps.bs4Available
  · rw [if_pos hav]
    rcases caps.bs4Text text with e | t
    · exact singleTextRow_source
    · exact singleTextRow_source
  · rw [if_neg hav]
    exact singleTextRow_source

theorem readHtmlText_source {caps : Caps} {content : List Nat}
    {filename : String} :
    ∀ r ∈ (readHtmlText caps content filename).rows,
      cellOf (readHtmlText caps content filename) r "_source"
        = some (Cell.str filename) := by
  unfold readHtmlText
  rcases caps.readHtmlTables (decodeTextBytes caps content) with e | tables
  · exact htmlFallback_source
  · simp only
    by_cases hemp : tables.isEmpty
    · rw [if_pos hemp]
      exact htmlFallback_source
    · rw [if_neg hemp]
      exact concatWithOrigin_const (fun f hf => by
        rcases List.mem_map.1 hf with ⟨p, _, rfl⟩
        exact assign_source)

theorem readXml_source {caps : Caps} {content : List Nat} {filename : String} :
    ∀ r ∈ (readXml caps content filename).rows,
      cellOf (readXml caps content filename) r "_source"
        = some (Cell.str filename) := by
  unfold readXml
  by_cases hav : caps.xmltodictAvailable
  · rw [if_pos hav]
    rcases caps.xmlNormalize (decodeTextBytes caps content) with e | df
    · exact singleTextRow_source
    · exact assign_source
  · rw [if_neg hav]
    exact singleTextRow_source

theorem readDocx_source {caps : Caps} {content : List Nat}
    {filename : String} {df : DataFrame}
    (h : readDocx caps content filename = .ok df) :
    ∀ r ∈ df.rows, cellOf df r "_source" = some (Cell.str filename) := by
  unfold readDocx at h
  by_cases hav : caps.docxAvailable
  · rw [if_pos hav] at h
    rcases hp : caps.docxParas content with e | allParas
    · rw [hp] at h; simp at h
    · rw [hp] at h
      simp only [Except.ok.injEq] at h
      subst h
      intro r hr
      rcases List.mem_map.1 hr with ⟨p, _, rfl⟩
      simp [cellOf, colIdx]
  · rw [if_neg hav] at h
    cases h
    exact singleTextRow_source

theorem readGzipSinglefile_source {caps : Caps} {content : List Nat}
    {hint filename : String} :
    ∀ r ∈ (readGzipSinglefile caps content hint filename).rows,
      cellOf (readGzipSinglefile caps content hint filename) r "_source"
        = some (Cell.str filename) := by
  unfold readGzipSinglefile
  rcases caps.gzipDecompress content with e | raw
  · exact singleTextRow_source
  · simp only
    rcases caps.readCsv raw none with e1 | df1
    · rcases caps.readJson raw with e2 | df2
      · rcases sniffCsvDelimiter caps (decodeTextBytes caps raw) with _ | delim
        · exact singleTextRow_source
        · simp only
          rcases caps.readCsvText (decodeTextBytes caps raw) delim with e3 | df3
          · exact singleTextRow_source
          · exact assign_source
      · exact assign_source
    · exact assign_source

theorem plainTextResult_source {caps : Caps} {content : List Nat}
    {filename : String} :
    ∀ r ∈ (plainTextResult caps content filename).rows,
      cellOf (plainTextResult caps content filename) r "_source"
        = some (Cell.str filename) := by
  unfold plainTextResult
  rcases sniffCsvDelimiter caps (decodeTextBytes caps content) with _ | delim
  · exact singleTextRow_source
  · simp only
    rcases caps.readCsvText (decodeTextBytes caps content) delim with e | df
    · exact singleTextRow_source
    · exact assign_source

/-- Invariant of the `_read_archive` member loop: every accumulated frame has
the constant `_source` column set to the container filename, because tagging
ends with `df["_source"] = filename`. -/
theorem archiveLoop_source {loadRec : List Nat → String → Except Err DataFrame}
    {filename : String} {members : List Member} {processed : Nat}
    {acc frames : List DataFrame}
    (hacc : ∀ f ∈ acc, ∀ r ∈ f.rows, cellOf f r "_source"
      = some (Cell.str filename))
    (h : archiveLoop loadRec filename members processed acc = .ok frames) :
    ∀ f ∈ frames, ∀ r ∈ f.rows, cellOf f r "_source"
      = some (Cell.str filename) := by
  induction members generalizing processed acc with
  | nil =>
    unfold archiveLoop at h
    cases h
    exact hacc
  | cons m rest ih =>
    unfold archiveLoop at h
    by_cases hq : processed ≥ MAX_ARCHIVE_FILES
    · rw [if_pos hq] at h
      cases h
      exact hacc
    · rw [if_neg hq] at h
      by_cases hdir : m.isFile = false
      · rw [if_pos hdir] at h
        exact ih hacc h
      · rw [if_neg hdir] at h
        by_cases hsize : m.size ≠ 0 ∧ m.size > MAX_FILE_BYTES
        · rw [if_pos hsize] at h
          exact ih hacc h
        · rw [if_neg hsize] at h
          rcases hmc : m.content with _ | inner
          · rw [hmc] at h
            exact ih hacc h
          · rw [hmc] at h
            simp only at h
            rcases hld : loadRec inner m.name with e | df
            · rw [hld] at h; simp at h
            · rw [hld] at h
              simp only at h
              by_cases hemp : df.rows.isEmpty ∨ df.cols.isEmpty
              · rw [if_pos hemp] at h
                exact ih hacc h
              · rw [if_neg hemp] at h
                refine ih (fun f hf => ?_) h
                rcases List.mem_append.1 hf with hf0 | hf1
                · exact hacc f hf0
                · rw [List.mem_singleton] at hf1
                  subst hf1
                  exact assign_source

theorem readArchive_source {loadRec : List Nat → String → Except Err DataFrame}
    {caps : Caps} {content : List Nat} {filename : String} {df : DataFrame}
    (h : readArchive loadRec caps content filename = .ok df) :
    ∀ r ∈ df.rows, cellOf df r "_source" = some (Cell.str filename) := by
  unfold readArchive at h
  by_cases hzip : pyEndsWith (pyLower filename) ".zip"
  · rw [if_pos hzip] at h
    rcases hopen : caps.zipOpen content with e | members
    · rw [hopen] at h; simp at h
    · rw [hopen] at h
      simp only at h
      rcases hloop : archiveLoop loadRec filename members 0 [] with e | frames
      · rw [hloop] at h; simp at h
      · rw [hloop] at h
        cases h
        exact concatWithOrigin_const (archiveLoop_source (by simp) hloop)
  · rw [if_neg hzip] at h
    by_cases htar : isTarSuffix (pyLower filename)
    · rw [if_pos htar] at h
      rcases hopen : caps.tarOpen content with e | members
      · rw [hopen] at h
        cases h
        exact singleTextRow_source
      · rw [hopen] at h
        simp only at h
        rcases hloop : archiveLoop loadRec filename members 0 [] with e | frames
        · rw [hloop] at h
          cases h
          exact singleTextRow_source
        · rw [hloop] at h
          cases h
          exact concatWithOrigin_const (archiveLoop_source (by simp) hloop)
    · rw [if_neg htar] at h
      cases h
      exact singleTextRow_source

/-- Every arm of the loader body tags `_source` with the filename argument on
every row of a successfully returned table, whatever the delegated parsers
and the recursive loader return. -/
theorem loadBody_source {loadRec : List Nat → String → Except Err DataFrame}
    {caps : Caps} {content : List Nat} {filename : String} {df : DataFrame}
    (h : loadBody loadRec caps content filename = .ok df) :
    ∀ r ∈ df.rows, cellOf df r "_source" = some (Cell.str filename) := by
  unfold loadBody at h
  rcases hb : detectBranch filename with _ | _ | _ | _ | _ | _ | _ | _ | _ | _ | _ | _ | _ | _ | _ <;>
    rw [hb] at h <;> simp only at h
  case csv =>
    rcases hc : caps.readCsv content none with e | df0
    · rw [hc] at h; simp [Except.map] at h
    · rw [hc] at h
      simp only [Except.map] at h
      cases h
      exact assign_source
  case tsvLike =>
    rcases hc : caps.readCsv content (some "\t") with e | df0
    · rw [hc] at h; simp [Except.map] at h
    · rw [hc] at h
      simp only [Except.map] at h
      cases h
      exact assign_source
  case excel => exact readExcelAllSheets_source h
  case parquet =>
    rcases hc : caps.readParquet content with e | df0
    · rw [hc] at h; simp [Except.map] at h
    · rw [hc] at h
      simp only [Except.map] at h
      cases h
      exact assign_source
  case json =>
    rcases hc : caps.readJson content with e | df0
    · rw [hc] at h
      rcases e with _ | tag | tag
      · simp at h
      · simp only at h
        rcases hn : caps.jsonLoadsNormalize (decodeTextBytes caps content) with e2 | df1
        · rw [hn] at h; cases h; exact singleTextRow_source
        · rw [hn] at h; cases h; exact assign_source
      · simp at h
    · rw [hc] at h
      simp only at h
      cases h
      exact assign_source
  case pdf =>
    cases h
    exact readPdf_source
  case sqlite => exact readSqlite_source h
  case gzipSingle =>
    cases h
    exact readGzipSinglefile_source
  case archive => exact readArchive_source h
  case html =>
    cases h
    exact readHtmlText_source
  case xml =>
    cases h
    exact readXml_source
  case docx => exact readDocx_source h
  case image =>
    rcases hc : caps.imageDecode content with e | handle
    · rw [hc] at h
      cases h
      exact singleTextRow_source
    · rw [hc] at h
      simp only at h
      cases h
      intro r hr
      simp only [List.mem_singleton] at hr
      subst hr
      simp [cellOf, colIdx]
  case plainText =>
    cases h
    exact plainTextResult_source
  case finalFallback =>
    cases h
    exact singleTextRow_source

/-- Provenance of the public loader: a successfully returned table carries the
call filename in `_source` on every row, at every recursion depth. -/
theorem load_source {caps : Caps} {fuel : Nat} {content : List Nat}
    {filename : String} {df : DataFrame}
    (h : load caps fuel content filename = .ok df) :
    ∀ r ∈ df.rows, cellOf df r "_source" = some (Cell.str filename) := by
  cases fuel with
  | zero => simp [load] at h
  | succ n => exact loadBody_source h

/-- Once the processed counter has reached `MAX_ARCHIVE_FILES`, the member
loop returns its accumulator unchanged, whatever members remain. -/
theorem archiveLoop_quota_stop {loadRec : List Nat → String → Except Err DataFrame}
    {filename : String} {members : List Member} {p : Nat} {acc : List DataFrame}
    (hq : p ≥ MAX_ARCHIVE_FILES) :
    archiveLoop loadRec filename members p acc = .ok acc := by
  cases members with
  | nil => rfl
  | cons m rest =>
    unfold archiveLoop
    rw [if_pos hq]

/-- The member loop accumulates at most `MAX_ARCHIVE_FILES - p` frames beyond
its accumulator: each accumulation advances the counter, and the loop breaks
at the quota. -/
theorem archiveLoop_length {loadRec : List Nat → String → Except Err DataFrame}
    {filename : String} {members : List Member} {p : Nat}
    {acc frames : List DataFrame}
    (h : archiveLoop loadRec filename members p acc = .ok frames) :
    frames.length ≤ acc.length + (MAX_ARCHIVE_FILES - p) := by
  induction members generalizing p acc with
  | nil =>
    unfold archiveLoop at h
    cases h
    omega
  | cons m rest ih =>
    unfold archiveLoop at h
    by_cases hq : p ≥ MAX_ARCHIVE_FILES
    · rw [if_pos hq] at h
      cases h
      omega
    · rw [if_neg hq] at h
      by_cases hdir : m.isFile = false
      · rw [if_pos hdir] at h
        exact ih h
      · rw [if_neg hdir] at h
        by_cases hsize : m.size ≠ 0 ∧ m.size > MAX_FILE_BYTES
        · rw [if_pos hsize] at h
          exact ih h
        · rw [if_neg hsize] at h
          rcases hmc : m.content with _ | inner
          · rw [hmc] at h
            exact ih h
          · rw [hmc] at h
            simp only at h
            rcases hld : loadRec inner m.name with e | df
            · rw [hld] at h; simp at h
            · rw [hld] at h
              simp only at h
              by_cases hemp : df.rows.isEmpty ∨ df.cols.isEmpty
              · rw [if_pos hemp] at h
                exact ih h
              · rw [if_neg hemp] at h
                have := ih h
                simp only [List.length_append, List.length_singleton] at this
                omega

/-- Every frame the member loop accumulates beyond a suitable accumulator has
a constant `_file` column (holding that member's name). -/
theorem archiveLoop_file {loadRec : List Nat → String → Except Err DataFrame}
    {filename : String} {members : List Member} {p : Nat}
    {acc frames : List DataFrame}
    (hacc : ∀ f ∈ acc, ∃ v, ∀ r ∈ f.rows, cellOf f r "_file" = some v)
    (h : archiveLoop loadRec filename members p acc = .ok frames) :
    ∀ f ∈ frames, ∃ v, ∀ r ∈ f.rows, cellOf f r "_file" = some v := by
  induction members generalizing p acc with
  | nil =>
    unfold archiveLoop at h
    cases h
    exact hacc
  | cons m rest ih =>
    unfold archiveLoop at h
    by_cases hq : p ≥ MAX_ARCHIVE_FILES
    · rw [if_pos hq] at h
      cases h
      exact hacc
    · rw [if_neg hq] at h
      by_cases hdir : m.isFile = false
      · rw [if_pos hdir] at h
        exact ih hacc h
      · rw [if_neg hdir] at h
        by_cases hsize : m.size ≠ 0 ∧ m.size > MAX_FILE_BYTES
        · rw [if_pos hsize] at h
          exact ih hacc h
        · rw [if_neg hsize] at h
          rcases hmc : m.content with _ | inner
          · rw [hmc] at h
            exact ih hacc h
          · rw [hmc] at h
            simp only at h
            rcases hld : loadRec inner m.name with e | df
            · rw [hld] at h; simp at h
            · rw [hld] at h
              simp only at h
              by_cases hemp : df.rows.isEmpty ∨ df.cols.isEmpty
              · rw [if_pos hemp] at h
                exact ih hacc h
              · rw [if_neg hemp] at h
                refine ih (fun f hf => ?_) h
                rcases List.mem_append.1 hf with hf0 | hf1
                · exact hacc f hf0
                · rw [List.mem_singleton] at hf1
                  subst hf1
                  exact ⟨Cell.str m.name,
                    assignCol_other (by decide) assignCol_self⟩

/-- The cells of one labelled column of a frame, top to bottom (`[]` when the
label is absent). -/
def colValues (df : DataFrame) (c : String) : List Cell :=
  match colIdx df.cols c with
  | some i => df.rows.map (fun r => r.getD i Cell.null)
  | none => []

/-- Number of distinct values in the `_file` column of a frame. -/
def distinctFileTags (df : DataFrame) : Nat :=
  ((colValues df "_file").dedup).length

/-- A cell carried into a concatenation survives at its label. -/
theorem concat_cell_of_mem {fs : List DataFrame} {f : DataFrame}
    {r0 : List Cell} {c : String} {v : Cell} (hf : f ∈ fs) (_hr0 : r0 ∈ f.rows)
    (hcell : cellOf f r0 c = some v) :
    cellOf (concatWithOrigin fs) (alignRow f.cols (concatWithOrigin fs).cols r0) c
      = some v := by
  match fs with
  | [] => simp at hf
  | f0 :: rest =>
    have hcols : (concatWithOrigin (f0 :: rest)).cols = concatCols (f0 :: rest) := rfl
    rcases cellOf_eq_some hcell with ⟨i, hi, hval⟩
    have hcmem : c ∈ concatCols (f0 :: rest) :=
      (mem_concatCols (by simp)).2 ⟨f, hf, colIdx_mem hi⟩
    rcases Option.isSome_iff_exists.1 (colIdx_isSome_of_mem hcmem) with ⟨j, hj⟩
    have hjlt : j < (concatCols (f0 :: rest)).length := colIdx_lt_length hj
    have halign : (alignRow f.cols (concatCols (f0 :: rest))
        r0).getD j Cell.null = r0.getD i Cell.null := by
      rw [alignRow, getD_map_of_lt hjlt _ Cell.null ""]
      rw [colIdx_getD "" hj, hi]
    show (colIdx (concatWithOrigin (f0 :: rest)).cols c).map
      (fun k => (alignRow f.cols (concatWithOrigin (f0 :: rest)).cols
        r0).getD k Cell.null) = some v
    rw [hcols, hj]
    exact congrArg some (halign.trans hval)

/-- When every input frame has some constant value in column `c`, the
concatenation has at most one distinct `c`-value per input frame. -/
theorem concat_distinct_bound {fs : List DataFrame} {c : String}
    (hconst : ∀ f ∈ fs, ∃ v, ∀ r ∈ f.rows, cellOf f r c = some v) :
    ((colValues (concatWithOrigin fs) c).dedup).length ≤ fs.length := by
  classical
  choose tagF htagF using hconst
  have hsub : (colValues (concatWithOrigin fs) c).dedup
      ⊆ fs.attach.map (fun x => tagF x.1 x.2) := by
    intro x hx
    rw [List.mem_dedup] at hx
    unfold colValues at hx
    cases hj : colIdx (concatWithOrigin fs).cols c with
    | none => rw [hj] at hx; simp at hx
    | some j =>
      rw [hj] at hx
      rcases List.mem_map.1 hx with ⟨r, hr, rfl⟩
      match fs with
      | [] => simp [concatWithOrigin, emptyDF] at hr
      | f0 :: rest =>
        rcases mem_concatRows hr with ⟨f, hf, r0, hr0, rfl⟩
        have hc1 := concat_cell_of_mem hf hr0 (htagF f hf r0 hr0)
        rcases cellOf_eq_some hc1 with ⟨j2, hj2, hval2⟩
        have hjj : j2 = j := by
          rw [hj] at hj2
          exact (Option.some_inj.1 hj2).symm
        subst hjj
        rw [List.mem_map]
        exact ⟨⟨f, hf⟩, List.mem_attach _ _, hval2.symm⟩
  calc ((colValues (concatWithOrigin fs) c).dedup).length
      ≤ (fs.attach.map (fun x => tagF x.1 x.2)).length :=
        (List.subperm_of_subset (List.nodup_dedup _) hsub).length_le
    _ = fs.length := by simp

/-- Quota enforcement at the archive handler boundary: a table returned by
`_read_archive` holds at most `MAX_ARCHIVE_FILES` distinct `_file` values. -/
theorem readArchive_distinct_file_tags
    {loadRec : List Nat → String → Except Err DataFrame} {caps : Caps}
    {content : List Nat} {filename : String} {df : DataFrame}
    (h : readArchive loadRec caps content filename = .ok df) :
    distinctFileTags df ≤ MAX_ARCHIVE_FILES := by
  have hplaceholder : distinctFileTags (singleTextRow "<archive content>" filename)
      ≤ MAX_ARCHIVE_FILES := by
    simp [distinctFileTags, colValues, singleTextRow, colIdx, MAX_ARCHIVE_FILES]
  have hloopcase : ∀ members frames,
      archiveLoop loadRec filename members 0 [] = .ok frames →
      distinctFileTags (concatWithOrigin frames) ≤ MAX_ARCHIVE_FILES := by
    intro members frames hloop
    calc distinctFileTags (concatWithOrigin frames)
        ≤ frames.length := concat_distinct_bound (archiveLoop_file (by simp) hloop)
      _ ≤ ([] : List DataFrame).length + (MAX_ARCHIVE_FILES - 0) :=
          archiveLoop_length hloop
      _ ≤ MAX_ARCHIVE_FILES := by simp
  unfold readArchive at h
  by_cases hzip : pyEndsWith (pyLower filename) ".zip"
  · rw [if_pos hzip] at h
    rcases hopen : caps.zipOpen content with e | members
    · rw [hopen] at h; simp at h
    · rw [hopen] at h
      simp only at h
      rcases hloop : archiveLoop loadRec filename members 0 [] with e | frames
      · rw [hloop] at h; simp at h
      · rw [hloop] at h
        cases h
        exact hloopcase members frames hloop
  · rw [if_neg hzip] at h
    by_cases htar : isTarSuffix (pyLower filename)
    · rw [if_pos htar] at h
      rcases hopen : caps.tarOpen content with e | members
      · rw [hopen] at h
        cases h
        exact hplaceholder
      · rw [hopen] at h
        simp only at h
        rcases hloop : archiveLoop loadRec filename members 0 [] with e | frames
        · rw [hloop] at h
          cases h
          exact hplaceholder
        · rw [hloop] at h
          cases h
          exact hloopcase members frames hloop
    · rw [if_neg htar] at h
      cases h
      exact hplaceholder

/-- Size skip: an archive member whose declared size exceeds `MAX_FILE_BYTES`
leaves the member loop exactly as if the member were absent, for every
recursive loader — its bytes are never consulted and it contributes nothing. -/
theorem archiveLoop_skip_oversized
    {loadRec : List Nat → String → Except Err DataFrame} {filename : String}
    {m : Member} {rest : List Member} {p : Nat} {acc : List DataFrame}
    (hsize : m.size > MAX_FILE_BYTES) :
    archiveLoop loadRec filename (m :: rest) p acc
      = archiveLoop loadRec filename rest p acc := by
  by_cases hq : p ≥ MAX_ARCHIVE_FILES
  · rw [archiveLoop_quota_stop hq, archiveLoop_quota_stop hq]
  · show (if p ≥ MAX_ARCHIVE_FILES then Except.ok acc
      else if m.isFile = false then archiveLoop loadRec filename rest p acc
      else if m.size ≠ 0 ∧ m.size > MAX_FILE_BYTES then
        archiveLoop loadRec filename rest p acc
      else _) = archiveLoop loadRec filename rest p acc
    rw [if_neg hq]
    by_cases hdir : m.isFile = false
    · rw [if_pos hdir]
    · rw [if_neg hdir]
      have hcond : m.size ≠ 0 ∧ m.size > MAX_FILE_BYTES := by
        constructor
        · intro h0
          rw [h0] at hsize
          exact absurd hsize (by simp [MAX_FILE_BYTES])
        · exact hsize
      rw [if_pos hcond]

theorem concatRows_eq_flatMap {outCols : List String} {fs : List DataFrame} :
    concatRows outCols fs
      = fs.flatMap (fun f => f.rows.map (alignRow f.cols outCols)) := by
  induction fs with
  | nil => rfl
  | cons g gs ih => simp [concatRows, ih]

/-- Null fill: a column of the concatenation that an input frame lacks reads
as the null marker on every row contributed by that frame. -/
theorem concat_null_fill {fs : List DataFrame} {f : DataFrame} {r0 : List Cell}
    {c : String} (hc : c ∈ (concatWithOrigin fs).cols) (hnot : c ∉ f.cols) :
    cellOf (concatWithOrigin fs) (alignRow f.cols (concatWithOrigin fs).cols r0) c
      = some Cell.null := by
  match fs with
  | [] => simp [concatWithOrigin, emptyDF] at hc
  | f0 :: rest =>
    have hc2 : c ∈ concatCols (f0 :: rest) := hc
    rcases Option.isSome_iff_exists.1 (colIdx_isSome_of_mem hc2) with ⟨j, hj⟩
    have hjlt : j < (concatCols (f0 :: rest)).length := colIdx_lt_length hj
    have halign : (alignRow f.cols (concatCols (f0 :: rest))
        r0).getD j Cell.null = Cell.null := by
      rw [alignRow, getD_map_of_lt hjlt _ Cell.null ""]
      rw [colIdx_getD "" hj, colIdx_none_of_not_mem hnot]
    have hcols : (concatWithOrigin (f0 :: rest)).cols
        = concatCols (f0 :: rest) := rfl
    show (colIdx (concatWithOrigin (f0 :: rest)).cols c).map
      (fun k => (alignRow f.cols (concatWithOrigin (f0 :: rest)).cols
        r0).getD k Cell.null) = some Cell.null
    rw [hcols, hj]
    exact congrArg some halign

theorem pyEndsWith_empty (s : String) : pyEndsWith s "" = true := by
  simp [pyEndsWith, List.isSuffixOf]

/-- A capability assignment where every optional module is unavailable and
every delegated parser fails, the base for the concrete test instances. -/
def inertCaps : Caps where
  decUtf8 := fun _ => none
  decUtf16 := fun _ => none
  decLatin1 := fun _ => none
  chardetAvailable := false
  chardetDecode := fun _ => none
  utf8Replace := fun _ => ""
  sniffDialect := fun _ => none
  readCsv := fun _ _ => .error (.other "ParserError")
  readCsvText := fun _ _ => .error (.other "ParserError")
  readExcelSheets := fun _ => .error (.other "BadZipFileXlsx")
  readExcelSheetsCompat := fun _ => .error (.other "BadZipFileXlsx")
  readParquet := fun _ => .error (.other "ArrowInvalid")
  readJson := fun _ => .error (.valueError "ValueError")
  jsonLoadsNormalize := fun _ => .error (.valueError "JSONDecodeError")
  pdfplumberAvailable := true
  pdfOpen := fun _ => .error (.other "PDFSyntaxError")
  sqliteMaster := fun _ => .error (.other "DatabaseError")
  sqliteQuery := fun _ _ => .error (.other "DatabaseError")
  gzipDecompress := fun _ => .error (.other "BadGzipFile")
  readHtmlTables := fun _ => .error (.valueError "NoTablesFound")
  bs4Available := false
  bs4Text := fun _ => .error (.other "Bs4Error")
  xmltodictAvailable := false
  xmlNormalize := fun _ => .error (.other "ExpatError")
  docxAvailable := false
  docxParas := fun _ => .error (.other "PackageNotFoundError")
  imageDecode := fun _ => .error (.other "UnidentifiedImageError")
  zipOpen := fun _ => .error (.other "BadZipFile")
  tarOpen := fun _ => .error (.other "ReadError")

/-- Bytes of the ASCII text `"a,b\n"`, a header-only CSV file. -/
def headerOnlyCsvBytes : List Nat := [97, 44, 98, 10]

/-- The frame pandas returns for the header-only CSV `"a,b\n"`: columns `a`
and `b`, zero rows. -/
def headerOnlyFrame : DataFrame := ⟨["a", "b"], [], by simp⟩

/-- A one-row single-column frame standing for a parsed member CSV. -/
def memberCsvFrame : DataFrame := ⟨["v"], [[Cell.int 7]], by simp⟩

/-- A pandas-like concrete capability instance: `read_csv` raises
`EmptyDataError` on empty input (as pandas does), returns the header-only
frame on `"a,b\n"`, and parses the marker byte string `[51]` as a one-row
table; `zipfile.ZipFile` accepts the marker archives `[1]` (holding
`inner.zip = [2]`) and `[2]` (holding `member.csv = [51]`) and raises
`BadZipFile` on everything else. -/
def pdCaps : Caps :=
  { inertCaps with
    readCsv := fun b _ =>
      if b = [] then .error (.valueError "EmptyDataError")
      else if b = headerOnlyCsvBytes then .ok headerOnlyFrame
      else if b = [51] then .ok memberCsvFrame
      else .error (.other "ParserError"),
    zipOpen := fun b =>
      if b = [1] then .ok [⟨"inner.zip", 4, true, some [2]⟩]
      else if b = [2] then .ok [⟨"member.csv", 4, true, some [51]⟩]
      else .error (.other "BadZipFile") }

/-- The tagged header-only table the loader hands back for `"a,b\n"` named
`x.csv`: zero rows but three columns, not the canonical empty table. -/
def headerTagged : DataFrame := ⟨["a", "b", "_source"], [], by simp⟩

/-- The table the loader returns for the nested marker archive `[1]` named
`outer.zip`: the row of the innermost `member.csv` carries
`_source = "outer.zip"` (each archive level overwrites `_source`) and
`_file = "inner.zip"` (the outermost member name). -/
def nestedResult : DataFrame :=
  ⟨["v", "_source", "_file"],
   [[Cell.int 7, Cell.str "outer.zip", Cell.str "inner.zip"]], by simp⟩

/-- A concrete instance whose utf-8 decode fails but whose utf-16 decode
succeeds. -/
def utf16Caps : Caps :=
  { inertCaps with decUtf16 := fun _ => some "utf16 text" }

/-- C1: the claim that `load_any_file_to_dataframe` is total and never raises
FAILS on the code.  The csv arm calls `pd.read_csv` with no `try`, so the
`EmptyDataError` pandas raises on empty bytes escapes the top-level call, and
the zip arm of `_read_archive` opens the container with no `try`, so
`BadZipFile` escapes on non-zip bytes named `.zip`. -/
theorem c1_totality_violated :
    load pdCaps 1 [] "data.csv" = .error (.valueError "EmptyDataError")
      ∧ load pdCaps 1 [0] "broken.zip" = .error (.other "BadZipFile") :=
  ⟨rfl, rfl⟩

/-- C2: the claim that `.tar.gz` filenames dispatch to the archive handler
FAILS on the code: the `.gz` suffix check precedes the archive check in
`load_any_file_to_dataframe`, so `data.tar.gz` is routed to
`_read_gzip_singlefile` — even though `_read_archive` itself lists `.tar.gz`
among the tar suffixes it is meant to receive. -/
theorem c2_tar_gz_misdispatch :
    detectBranch "data.tar.gz" = Branch.gzipSingle
      ∧ detectBranch "data.tar.gz" ≠ Branch.archive
      ∧ isTarSuffix (pyLower "data.tar.gz") = true
      ∧ ∀ (caps : Caps) (content : List Nat) (fuel : Nat),
          load caps (fuel + 1) content "data.tar.gz"
            = .ok (readGzipSinglefile caps content
                (dropLast3 "data.tar.gz") "data.tar.gz") := by
  refine ⟨by decide, by decide, by decide, fun caps content fuel => ?_⟩
  show loadBody (load caps fuel) caps content "data.tar.gz" = _
  have hb : detectBranch "data.tar.gz" = Branch.gzipSingle := by decide
  unfold loadBody
  rw [hb]

/-- C3: the claim that a failed parse with the declared separator falls
through to the plain-text ladder FAILS on the code: the csv arm is
`return pd.read_csv(...).assign(...)` with no `try`, so the parser exception
propagates out of `load_any_file_to_dataframe` instead. -/
theorem c3_csv_failure_raises (caps : Caps) (content : List Nat)
    (filename : String) (e : Err) (fuel : Nat)
    (hcsv : pyEndsWith (pyLower filename) ".csv" = true)
    (hfail : caps.readCsv content none = .error e) :
    load caps (fuel + 1) content filename = .error e := by
  have hb : detectBranch filename = Branch.csv := by
    simp [detectBranch, hcsv]
  show loadBody (load caps fuel) caps content filename = .error e
  unfold loadBody
  rw [hb]
  simp only
  rw [hfail]
  rfl

/-- Witness for C3 at a concrete input: empty bytes named `x.csv`, where the
pandas-like csv parser raises `EmptyDataError`. -/
theorem c3_csv_failure_raises_witness :
    pyEndsWith (pyLower "x.csv") ".csv" = true
      ∧ pdCaps.readCsv [] none = .error (.valueError "EmptyDataError")
      ∧ load pdCaps 1 [] "x.csv" = .error (.valueError "EmptyDataError") :=
  ⟨by decide, rfl,
   c3_csv_failure_raises pdCaps [] "x.csv" (.valueError "EmptyDataError") 0
     (by decide) rfl⟩

/-- C4 counterexample: the claim fails on the code in two places.  A
header-only CSV (`"a,b\n"` named `x.csv`) yields a zero-row table that still
has three columns — not the canonical empty table the claim requires for
empty results.  And for the nested archive `outer.zip ∋ inner.zip ∋
member.csv`, the returned row carries `_source = "outer.zip"` (the outermost
container: each archive level overwrites `_source`), not the innermost
container filename `"inner.zip"` the claim names. -/
theorem c4_counterexample :
    load pdCaps 1 headerOnlyCsvBytes "x.csv" = .ok headerTagged
      ∧ headerTagged.rows = []
      ∧ ¬(headerTagged.rows = [] ∧ headerTagged.cols = [])
      ∧ load pdCaps 3 [1] "outer.zip" = .ok nestedResult
      ∧ cellOf nestedResult
          [Cell.int 7, Cell.str "outer.zip", Cell.str "inner.zip"] "_source"
          = some (Cell.str "outer.zip")
      ∧ Cell.str "outer.zip" ≠ Cell.str "inner.zip" :=
  ⟨rfl, rfl, by decide, rfl, by decide, by decide⟩

/-- C4 as amended: every row of a table successfully returned by the loader
carries `_source` equal to the filename argument of that call (for archives
this is the container filename of the outermost expansion, since each level
overwrites `_source`); a returned table with zero rows may still carry
columns. -/
theorem c4_provenance_amended {caps : Caps} {fuel : Nat} {content : List Nat}
    {filename : String} {df : DataFrame}
    (h : load caps fuel content filename = .ok df) :
    ∀ r ∈ df.rows, cellOf df r "_source" = some (Cell.str filename) :=
  load_source h

/-- Witness for the amended C4 at a concrete input: an unknown extension with
undecodable empty bytes degrades to the free-text row, tagged with the call
filename. -/
theorem c4_provenance_amended_witness :
    cellOf (singleTextRow "" "notes.unknownext")
      [Cell.str "", Cell.str "notes.unknownext"] "_source"
      = some (Cell.str "notes.unknownext") :=
  @c4_provenance_amended inertCaps 1 [] "notes.unknownext"
    (singleTextRow "" "notes.unknownext") rfl
    [Cell.str "", Cell.str "notes.unknownext"] (by decide)

/-- C5: quota enforcement of a single archive expansion — the member loop
returns as soon as the processed counter has reached `MAX_ARCHIVE_FILES`
(silent truncation), and any table `_read_archive` returns carries at most
`MAX_ARCHIVE_FILES` distinct `_file` tags, whatever the archive holds. -/
theorem c5_archive_quota :
    (∀ (loadRec : List Nat → String → Except Err DataFrame)
        (filename : String) (members : List Member) (p : Nat)
        (acc : List DataFrame), p ≥ MAX_ARCHIVE_FILES →
        archiveLoop loadRec filename members p acc = .ok acc)
      ∧ (∀ (loadRec : List Nat → String → Except Err DataFrame) (caps : Caps)
          (content : List Nat) (filename : String) (df : DataFrame),
          readArchive loadRec caps content filename = .ok df →
          distinctFileTags df ≤ MAX_ARCHIVE_FILES) :=
  ⟨fun _ _ _ _ _ hq => archiveLoop_quota_stop hq,
   fun _ _ _ _ _ h => readArchive_distinct_file_tags h⟩

/-- The table `_read_archive` produces for the marker archive `[2]` under the
pandas-like capabilities: one member row tagged with its member name. -/
def innerArchiveResult : DataFrame :=
  ⟨["v", "_source", "_file"],
   [[Cell.int 7, Cell.str "inner.zip", Cell.str "member.csv"]], by simp⟩

/-- Witness for C5 at concrete inputs: a loop entered at the quota returns
its accumulator untouched, and a concrete one-member zip yields one distinct
`_file` tag, within quota. -/
theorem c5_archive_quota_witness :
    archiveLoop (fun _ _ => .error .fuel) "a.zip"
        [⟨"m", 1, true, none⟩] MAX_ARCHIVE_FILES [] = .ok []
      ∧ distinctFileTags innerArchiveResult ≤ MAX_ARCHIVE_FILES :=
  ⟨c5_archive_quota.1 _ _ _ _ _ (by decide),
   c5_archive_quota.2 (load pdCaps 1) pdCaps [2] "inner.zip"
     innerArchiveResult rfl⟩

/-- C6: an archive member whose declared size exceeds `MAX_FILE_BYTES` is
skipped without being read — the member loop behaves exactly as if the member
were absent, for every recursive loader and every member content, so the
member contributes zero rows. -/
theorem c6_oversized_member_skipped
    (loadRec : List Nat → String → Except Err DataFrame) (filename : String)
    (m : Member) (rest : List Member) (p : Nat) (acc : List DataFrame)
    (hsize : m.size > MAX_FILE_BYTES) :
    archiveLoop loadRec filename (m :: rest) p acc
      = archiveLoop loadRec filename rest p acc :=
  archiveLoop_skip_oversized hsize

/-- An archive member one byte over the 25 MiB cap. -/
def oversizedMember : Member := ⟨"big.bin", 25 * 1024 * 1024 + 1, true, some [51]⟩

/-- Witness for C6 at a concrete input: the oversized member alone yields an
empty expansion even though its content would parse. -/
theorem c6_oversized_member_skipped_witness :
    oversizedMember.size > MAX_FILE_BYTES
      ∧ archiveLoop (load pdCaps 1) "a.zip" [oversizedMember] 0 [] = .ok [] :=
  ⟨by decide,
   (c6_oversized_member_skipped (load pdCaps 1) "a.zip" oversizedMember [] 0 []
     (by decide)).trans rfl⟩

/-- The suffixes checked before the plain-text arm of the dispatch chain of
`load_any_file_to_dataframe`, in source order. -/
def recognizedSuffixes : List String :=
  [".csv", ".tsv", ".tab", ".tsc", ".xlsx", ".xls", ".parquet", ".json",
   ".pdf", ".db", ".sqlite", ".sqlite3", ".gz", ".gzip", ".zip", ".tar",
   ".tgz", ".tar.gz", ".tbz2", ".tar.bz2", ".txz", ".tar.xz", ".html",
   ".htm", ".xml", ".docx", ".png", ".jpg", ".jpeg"]

/-- Whether a filename matches any suffix arm before the plain-text arm. -/
def recognizedBefore (filename : String) : Bool :=
  recognizedSuffixes.any (fun s => pyEndsWith (pyLower filename) s)

/-- C7: a filename with no recognized suffix (the empty string and unknown
extensions included) always takes the plain-text arm — detection cannot fail,
because every string ends with the empty suffix of that arm — and the result
is the delimited parse when a delimiter is sniffed and the parse succeeds,
otherwise the single free-text row; the arm returns `.ok` in every case. -/
theorem c7_unknown_suffix_plaintext (caps : Caps) (content : List Nat)
    (filename : String) (fuel : Nat)
    (hno : recognizedBefore filename = false) :
    detectBranch filename = Branch.plainText
      ∧ load caps (fuel + 1) content filename
          = .ok (plainTextResult caps content filename)
      ∧ ((∃ delim df,
            sniffCsvDelimiter caps (decodeTextBytes caps content) = some delim
              ∧ caps.readCsvText (decodeTextBytes caps content) delim = .ok df
              ∧ plainTextResult caps content filename
                  = assignCol df "_source" (Cell.str filename))
          ∨ plainTextResult caps content filename
              = singleTextRow (decodeTextBytes caps content) filename) := by
  simp only [recognizedBefore, recognizedSuffixes, List.any_cons, List.any_nil,
    Bool.or_eq_false_iff] at hno
  obtain ⟨h1, h2, h3, h4, h5, h6, h7, h8, h9, h10, h11, h12, h13, h14, h15,
    h16, h17, h18, h19, h20, h21, h22, h23, h24, h25, h26, h27, h28, h29, -⟩ := hno
  have hb : detectBranch filename = Branch.plainText := by
    simp [detectBranch, isTarSuffix, pyEndsWith_empty, h1, h2, h3, h4, h5, h6,
      h7, h8, h9, h10, h11, h12, h13, h14, h15, h16, h17, h18, h19, h20, h21,
      h22, h23, h24, h25, h26, h27, h28, h29]
  refine ⟨hb, ?_, ?_⟩
  · show loadBody (load caps fuel) caps content filename = _
    unfold loadBody
    rw [hb]
  · rcases hs : sniffCsvDelimiter caps (decodeTextBytes caps content)
        with _ | delim
    · right
      unfold plainTextResult
      rw [hs]
    · rcases hp : caps.readCsvText (decodeTextBytes caps content) delim
          with e | df
      · right
        unfold plainTextResult
        rw [hs]
        simp only
        rw [hp]
      · left
        refine ⟨delim, df, rfl, hp, ?_⟩
        unfold plainTextResult
        rw [hs]
        simp only
        rw [hp]

/-- Witness for C7 at a concrete input: `data.unknownext` matches no suffix
arm and, with no delimiter found, degrades to a single free-text row. -/
theorem c7_unknown_suffix_plaintext_witness :
    recognizedBefore "data.unknownext" = false
      ∧ load inertCaps 1 [] "data.unknownext"
          = .ok (singleTextRow "" "data.unknownext") :=
  ⟨by decide,
   ((c7_unknown_suffix_plaintext inertCaps [] "data.unknownext" 0
       (by decide)).2.1).trans (by rfl)⟩

/-- C8: `_decode_text_bytes` attempts utf-8, utf-16 and latin-1 in that
order, first success winning; with all three failed it uses the chardet guess
when the capability is available and yields one, and otherwise falls to
forced lossy utf-8 — hence it returns a string on every input. -/
theorem c8_decode_order (caps : Caps) (b : List Nat) :
    (∀ s, caps.decUtf8 b = some s → decodeTextBytes caps b = s)
      ∧ (caps.decUtf8 b = none → ∀ s, caps.decUtf16 b = some s →
          decodeTextBytes caps b = s)
      ∧ (caps.decUtf8 b = none → caps.decUtf16 b = none →
          ∀ s, caps.decLatin1 b = some s → decodeTextBytes caps b = s)
      ∧ (caps.decUtf8 b = none → caps.decUtf16 b = none →
          caps.decLatin1 b = none → caps.chardetAvailable = true →
          ∀ s, caps.chardetDecode b = some s → decodeTextBytes caps b = s)
      ∧ (caps.decUtf8 b = none → caps.decUtf16 b = none →
          caps.decLatin1 b = none →
          (caps.chardetAvailable = false ∨ caps.chardetDecode b = none) →
          decodeTextBytes caps b = caps.utf8Replace b) := by
  refine ⟨?_, ?_, ?_, ?_, ?_⟩
  · intro s h8
    unfold decodeTextBytes
    rw [h8]
  · intro h8 s h16
    unfold decodeTextBytes
    rw [h8]
    simp only
    rw [h16]
  · intro h8 h16 s hl
    unfold decodeTextBytes
    rw [h8]
    simp only
    rw [h16]
    simp only
    rw [hl]
  · intro h8 h16 hl hav s hcd
    unfold decodeTextBytes
    rw [h8]
    simp only
    rw [h16]
    simp only
    rw [hl]
    simp only
    rw [if_pos hav, hcd]
  · intro h8 h16 hl hcd
    unfold decodeTextBytes
    rw [h8]
    simp only
    rw [h16]
    simp only
    rw [hl]
    simp only
    rcases hcd with hav | hnone
    · rw [if_neg (by simp [hav])]
    · by_cases hav : caps.chardetAvailable
      · rw [if_pos hav, hnone]
      · rw [if_neg hav]

/-- Witness for C8 at a concrete input: utf-8 fails, utf-16 succeeds and
wins. -/
theorem c8_decode_order_witness :
    utf16Caps.decUtf8 [255] = none
      ∧ utf16Caps.decUtf16 [255] = some "utf16 text"
      ∧ decodeTextBytes utf16Caps [255] = "utf16 text" :=
  ⟨rfl, rfl, (c8_decode_order utf16Caps [255]).2.1 rfl "utf16 text" rfl⟩

/-- C9: `_concat_with_origin` maps the empty frame list to the canonical
empty table; on a non-empty list the output column set is exactly the union
of the input column sets, the output rows are the input frames' rows in frame
order and row order (each reindexed onto the output columns), and a column an
input frame lacks reads as the null marker on every row that frame
contributes. -/
theorem c9_concat_union :
    concatWithOrigin [] = emptyDF
      ∧ ∀ fs : List DataFrame, fs ≠ [] →
          (∀ c, c ∈ (concatWithOrigin fs).cols ↔ ∃ f ∈ fs, c ∈ f.cols)
            ∧ (concatWithOrigin fs).rows
                = fs.flatMap (fun f =>
                    f.rows.map (alignRow f.cols (concatWithOrigin fs).cols))
            ∧ (∀ f ∈ fs, ∀ r0 ∈ f.rows, ∀ c, c ∈ (concatWithOrigin fs).cols →
                c ∉ f.cols →
                alignRow f.cols (concatWithOrigin fs).cols r0
                    ∈ (concatWithOrigin fs).rows
                  ∧ cellOf (concatWithOrigin fs)
                      (alignRow f.cols (concatWithOrigin fs).cols r0) c
                      = some Cell.null) := by
  constructor
  · rfl
  · intro fs hne
    match fs with
    | [] => exact absurd rfl hne
    | f0 :: rest =>
      refine ⟨fun c => @mem_concatCols (f0 :: rest) c (by simp),
        concatRows_eq_flatMap, ?_⟩
      intro f hf r0 hr0 c hc hnot
      exact ⟨concatRows_mem hf hr0, concat_null_fill hc hnot⟩

/-- The spec's own example frames: T1 with columns a, b and T2 with
columns b, c. -/
def t1x : DataFrame := ⟨["a", "b"], [[Cell.int 1, Cell.int 2]], by simp⟩

def t2x : DataFrame := ⟨["b", "c"], [[Cell.int 3, Cell.int 4]], by simp⟩

/-- Witness for C9 at the spec's example: {a,b} with {b,c} concatenate to
{a,b,c}, T1 null-filled at c and T2 at a, both rows in order. -/
theorem c9_concat_union_witness :
    ("c" ∈ (concatWithOrigin [t1x, t2x]).cols)
      ∧ (concatWithOrigin [t1x, t2x]).cols = ["a", "b", "c"]
      ∧ (concatWithOrigin [t1x, t2x]).rows
          = [[Cell.int 1, Cell.int 2, Cell.null],
             [Cell.null, Cell.int 3, Cell.int 4]] :=
  ⟨((c9_concat_union.2 [t1x, t2x] (by simp)).1 "c").mpr
     ⟨t2x, by simp, by decide⟩, by decide, by decide⟩

/-- C10: when not all input frames share the same column sequence, the output
columns of `_concat_with_origin` are the deduplicated union sorted
lexicographically by their (stringified) names — a consequence of
`sort=True` — rather than the order the columns appear in the inputs. -/
theorem c10_sorted_union_columns {fs : List DataFrame}
    (hns : allSameCols (fs.map (fun f => f.cols)) = false) :
    (concatWithOrigin fs).cols.Sorted colLe
      ∧ ((concatWithOrigin fs).cols).Perm
          ((fs.map (fun f => f.cols)).flatten.dedup) := by
  match fs with
  | [] => simp [allSameCols] at hns
  | f0 :: rest =>
    have hcols : (concatWithOrigin (f0 :: rest)).cols
        = concatCols (f0 :: rest) := rfl
    rw [hcols]
    simp only [concatCols]
    simp only [List.map_cons] at hns
    rw [if_neg (by simp [hns])]
    exact ⟨List.sorted_insertionSort _ _, List.perm_insertionSort _ _⟩

/-- Frames whose single columns appear in the order b, a across the input
list. -/
def u1x : DataFrame := ⟨["b"], [[Cell.int 1]], by simp⟩

def u2x : DataFrame := ⟨["a"], [[Cell.int 2]], by simp⟩

/-- Witness for C10 at a concrete input: inputs carrying columns b then a
produce the sorted output a, b, not the input order. -/
theorem c10_sorted_union_columns_witness :
    allSameCols ([u1x, u2x].map (fun f => f.cols)) = false
      ∧ (concatWithOrigin [u1x, u2x]).cols = ["a", "b"]
      ∧ (concatWithOrigin [u1x, u2x]).cols.Sorted colLe :=
  ⟨by decide, by decide, (c10_sorted_union_columns (by decide)).1⟩
